import Mathlib

/-!
Verification of `libavfilter/af_compand.c` (audio compander filter).

Shallow embedding conventions:
* C `float`/`double` values are modelled as real numbers (`ℝ`); the claims
  checked here are about control flow, counting and exact algebraic identities,
  not about rounding of IEEE arithmetic.
* The zero-initialised segment array obtained from `av_mallocz_array` is a
  `List CompandSegment` of length `2 * (nb_points + 4)` filled with the zero
  segment; in-bounds reads and writes use `List.getD` / `List.set`, which agree
  with the C array inside the allocation.
* The unbounded sentinel scan in `get_volume` is the one place the C code can
  read past the allocation (undefined behavior); the model makes that case
  observable by returning `none`.
* The configuration checks of `config_output` operate on already-split option
  lists (the string-splitting front end is an external collaborator); a point
  whose fields `sscanf` cannot parse is modelled as `none`.
* The delay machine is modelled per channel.  In the C code the shared
  `delay_count` / `delay_index` fields are re-read at the start of each
  channel loop and re-written at the end, and every channel of one frame
  follows exactly the same index/count trajectory, so the single-channel
  model also determines the shared state.
-/

namespace Compand

/-- ChanParam from af_compand.c: per-channel attack/decay coefficients and the
envelope volume. -/
structure ChanParam where
  attack : ℝ
  decay : ℝ
  volume : ℝ

/-- CompandSegment from af_compand.c: a knot of the transfer curve together
with the quadratic coefficients of the region starting at it. -/
structure CompandSegment where
  x : ℝ
  y : ℝ
  a : ℝ
  b : ℝ

/-- Zero-filled segment, the content of `av_mallocz_array` memory. -/
def zeroSeg : CompandSegment := ⟨0, 0, 0, 0⟩

/-- Read of the segment array; inside the allocation the array is
zero-initialised, so `getD` with default `zeroSeg` matches the C memory. -/
def getSeg (segs : List CompandSegment) (i : ℕ) : CompandSegment :=
  segs.getD i zeroSeg

/-- The part of the compander state that the curve evaluator reads:
the built segment array and the floor thresholds of `config_output`. -/
structure CompandState where
  segments : List CompandSegment
  in_min_lin : ℝ
  out_min_lin : ℝ

/-- update_volume from af_compand.c: one envelope-follower step.
`delta = in - volume`; rising levels use the attack coefficient, falling
levels the decay coefficient. -/
noncomputable def update_volume (cp : ChanParam) (inVal : ℝ) : ChanParam :=
  let delta := inVal - cp.volume
  if delta > 0 then
    { cp with volume := cp.volume + delta * cp.attack }
  else
    { cp with volume := cp.volume + delta * cp.decay }

/-- Coefficient derivation of `config_output` (lines 476-483): a time constant
longer than one sample period becomes `1 - exp (-1 / (rate * t))`, anything
shorter collapses to the instantaneous coefficient `1`. -/
noncomputable def derive_coeff (t rate : ℝ) : ℝ :=
  if t > 1 / rate then 1 - Real.exp (-1 / (rate * t)) else 1

/-- The segment scan of get_volume: `for (i = 1;; i++) if (in_log <=
segments[i+1].x) break;`.  The loop has no bound; it stops only at the first
index whose `x` is at least `in_log`.  When that never happens inside the
array, the C code reads past the allocation (undefined behavior), which the
model reports as `none`. -/
noncomputable def seg_scan (segs : List CompandSegment) (t : ℝ) (i : ℕ) : Option ℕ :=
  match h : segs.get? (i + 1) with
  | none => none
  | some cs => if t ≤ cs.x then some i else seg_scan segs t (i + 1)
termination_by segs.length - i
decreasing_by
  have hlt : i + 1 < segs.length := List.get?_eq_some.mp h |>.1
  omega

/-- get_volume from af_compand.c: levels below `in_min_lin` return the floor
gain directly (no logarithm is taken); otherwise the segment found by the
sentinel scan is evaluated in log space. -/
noncomputable def get_volume (s : CompandState) (in_lin : ℝ) : Option ℝ :=
  if in_lin < s.in_min_lin then
    some s.out_min_lin
  else
    let in_log := Real.log in_lin
    match seg_scan s.segments in_log 1 with
    | none => none
    | some i =>
      let cs := getSeg s.segments i
      let d := in_log - cs.x
      some (Real.exp (cs.y + d * (cs.a * d + cs.b)))

/-- av_clipf: clamp a value into the interval from amin to amax. -/
noncomputable def clipf (v amin amax : ℝ) : ℝ :=
  if v < amin then amin else if v > amax then amax else v

/-- MOD from af_compand.c line 217: subtract `b` once when `a` has reached it;
this is the circular-buffer index step (the code keeps 0 <= a < 2b). -/
def MOD (a b : ℕ) : ℕ :=
  if a ≥ b then a - b else a

/-- Per-channel delay-line state: the shared fill count and write index
(re-derived per channel in the C code, identical across channels of a frame),
this channel's circular buffer and its envelope parameters. -/
structure DelayChan where
  count : ℕ
  index : ℕ
  buf : List ℝ
  cp : ChanParam

/-- Initial delay-line state after allocation: empty count, index 0, a
zero-filled buffer of `cap` samples. -/
noncomputable def init_chan (cap : ℕ) (cp : ChanParam) : DelayChan :=
  ⟨0, 0, List.replicate cap (0:ℝ), cp⟩

/-- One sample of compand_delay (lines 238-267): update the envelope from the
rectified input; if the buffer is full emit one gained sample from the slot
about to be overwritten, otherwise just grow the fill count; then store the
new sample in that slot and advance the index circularly.  An emitted sample
whose gain evaluation runs off the segment array is `none`
(see `seg_scan`). -/
noncomputable def compand_delay_step (s : CompandState) (cap : ℕ) (st : DelayChan)
    (x : ℝ) : DelayChan × List (Option ℝ) :=
  let cp1 := update_volume st.cp |x|
  if st.count ≥ cap then
    (⟨st.count, MOD (st.index + 1) cap, st.buf.set st.index x, cp1⟩,
     [(get_volume s cp1.volume).map fun g => clipf (st.buf.getD st.index 0 * g) (-1) 1])
  else
    (⟨st.count + 1, MOD (st.index + 1) cap, st.buf.set st.index x, cp1⟩, [])

/-- compand_delay applied to one input frame: fold the per-sample step over
the frame's samples, concatenating the emitted samples. -/
noncomputable def compand_delay_frame (s : CompandState) (cap : ℕ) :
    DelayChan → List ℝ → DelayChan × List (Option ℝ)
  | st, [] => (st, [])
  | st, x :: xs =>
    let p := compand_delay_step s cap st x
    let q := compand_delay_frame s cap p.1 xs
    (q.1, p.2 ++ q.2)

/-- Feeding a sequence of input frames through compand_delay. -/
noncomputable def process_frames (s : CompandState) (cap : ℕ) :
    DelayChan → List (List ℝ) → DelayChan × List (Option ℝ)
  | st, [] => (st, [])
  | st, f :: fs =>
    let p := compand_delay_frame s cap st f
    let q := process_frames s cap p.1 fs
    (q.1, p.2 ++ q.2)

/-- The read loop of compand_drain (lines 299-302): emit `n` buffered samples
starting at `idx`, advancing circularly, each gained with the same (frozen)
envelope volume `vol`; returns the emitted samples and the final index. -/
noncomputable def drain_read (s : CompandState) (cap : ℕ) (buf : List ℝ) (vol : ℝ) :
    ℕ → ℕ → List (Option ℝ) × ℕ
  | idx, 0 => ([], idx)
  | idx, n + 1 =>
    let out := (get_volume s vol).map fun g => clipf (buf.getD idx 0 * g) (-1) 1
    let rest := drain_read s cap buf vol (MOD (idx + 1) cap) n
    (out :: rest.1, rest.2)

/-- compand_drain (lines 277-308): one drain call emits `min 2048 delay_count`
samples gained with the frozen envelope volume, decrements the fill count by
that amount and stores the advanced index.  The envelope is not updated. -/
noncomputable def compand_drain (s : CompandState) (cap : ℕ) (st : DelayChan) :
    DelayChan × List (Option ℝ) :=
  let n := min 2048 st.count
  let r := drain_read s cap st.buf st.cp.volume st.index n
  (⟨st.count - n, r.2, st.buf, st.cp⟩, r.1)

/-- request_frame after end-of-stream (lines 527-528): as long as
`delay_count` is nonzero every further request drains one chunk; repeated
requests drain the buffer completely. -/
noncomputable def drain_all (s : CompandState) (cap : ℕ) (st : DelayChan) :
    DelayChan × List (Option ℝ) :=
  if h : st.count = 0 then (st, [])
  else
    let p := compand_drain s cap st
    let q := drain_all s cap p.1
    (q.1, p.2 ++ q.2)
termination_by st.count
decreasing_by
  simp only [compand_drain]
  omega

/-- Invariant of the delay line: the write index stays inside the buffer, the
fill count never exceeds the capacity, and the per-channel buffer keeps its
allocated length. -/
def DelayInv (cap : ℕ) (st : DelayChan) : Prop :=
  st.index < cap ∧ st.count ≤ cap ∧ st.buf.length = cap

/-- The two processing modes selected once at setup via the compand function
pointer. -/
inductive CompandMode where
  | nodelay
  | delay
  deriving DecidableEq

/-- Configuration error surfaced by config_output: every rejected
configuration returns AVERROR(EINVAL). -/
inductive ConfigError where
  | invalidConfig
  deriving DecidableEq

/-- C truncation of a rational toward zero, the conversion performed by the
assignment of the double `delay * sample_rate` to the int field
`delay_samples`. -/
def ctrunc (q : ℚ) : ℤ :=
  if 0 ≤ q then ⌊q⌋ else ⌈q⌉

/-- Delay-mode selection of config_output (lines 487-507): the delay in
seconds is converted exactly once to a sample count by C int truncation; a
non-positive count selects the non-delayed compand function, a positive one
the delayed function with that capacity. -/
def select_mode (delay : ℚ) (rate : ℤ) : CompandMode × ℤ :=
  let ds := ctrunc (delay * rate)
  if ds ≤ 0 then (.nodelay, ds) else (.delay, ds)

/-- Channel-count and attack/decay validation of config_output (lines
329-378), on the already-split option lists: a non-positive channel count is
rejected; more attacks or decays than channels are rejected; a negative time
constant is rejected; differing attack and decay counts are rejected. -/
def config_times_check (channels : ℤ) (attacks decays : List ℚ) :
    Except ConfigError Unit :=
  if channels ≤ 0 then .error .invalidConfig
  else if (attacks.length : ℤ) > channels ∨ (decays.length : ℤ) > channels then
    .error .invalidConfig
  else if attacks.any (· < 0) then .error .invalidConfig
  else if decays.any (· < 0) then .error .invalidConfig
  else if attacks.length ≠ decays.length then .error .invalidConfig
  else .ok ()

/-- The control-point loop of config_output (lines 381-398), on the
already-split option list; an item whose two fields sscanf cannot parse is
`none`.  Each accepted point is stored as its x together with the gain excess
`y - x`; a point whose x is below its predecessor's is rejected. -/
def parse_points_go (prev : Option ℚ) :
    List (Option (ℚ × ℚ)) → Except ConfigError (List (ℚ × ℚ))
  | [] => .ok []
  | none :: _ => .error .invalidConfig
  | some (x, y) :: rest =>
    if prev.getD x > x then .error .invalidConfig
    else
      match parse_points_go (some x) rest with
      | .error e => .error e
      | .ok l => .ok ((x, y - x) :: l)

/-- Entry point of the control-point loop: no predecessor yet. -/
def parse_points (items : List (Option (ℚ × ℚ))) : Except ConfigError (List (ℚ × ℚ)) :=
  parse_points_go none items

/-- Natural logarithm of 10, `M_LN10` of math.h. -/
noncomputable def lnTen : ℝ := Real.log 10

/-- Cosine of `atan2 dy dx`: the x-component of the unit vector in direction
(dx, dy); `atan2 0 0 = 0` gives cosine 1 in the degenerate case. -/
noncomputable def dirCos (dx dy : ℝ) : ℝ :=
  if dx = 0 ∧ dy = 0 then 1 else dx / Real.sqrt (dx ^ 2 + dy ^ 2)

/-- Sine of `atan2 dy dx`: the y-component of the unit vector in direction
(dx, dy); `atan2 0 0 = 0` gives sine 0 in the degenerate case. -/
noncomputable def dirSin (dx dy : ℝ) : ℝ :=
  if dx = 0 ∧ dy = 0 then 0 else dy / Real.sqrt (dx ^ 2 + dy ^ 2)

/-- Euclidean length of the segment between two knots, the
`sqrt (pow ... + pow ...)` of config_output. -/
noncomputable def seg_len (x1 y1 x2 y2 : ℝ) : ℝ :=
  Real.sqrt ((x2 - x1) ^ 2 + (y2 - y1) ^ 2)

/-- The backward knee radius of config_output line 444: the configured radius
capped at the FULL length of the previous segment. -/
noncomputable def knee_r_back (radius len : ℝ) : ℝ :=
  min radius len

/-- The forward knee radius of config_output line 450: the configured radius
capped at HALF the length of the following segment. -/
noncomputable def knee_r_fwd (radius len : ℝ) : ℝ :=
  min radius (len / 2)

/-- One iteration of the soft-knee rounding loop (config_output lines
433-466) at array index `i` (the knots sit at even indices, the rounded
corner entry point is written at the odd index between two knots).  All
reads happen before the respective writes in the C code, so every input is
taken from the unmodified array. -/
noncomputable def knee_step (radius : ℝ) (segs : List CompandSegment) (i : ℕ) :
    List CompandSegment :=
  let L4 := getSeg segs (i - 4)
  let L2 := getSeg segs (i - 2)
  let L0 := getSeg segs i
  let b4 := (L2.y - L4.y) / (L2.x - L4.x)
  let b2 := (L0.y - L2.y) / (L0.x - L2.x)
  let len1 := seg_len L4.x L4.y L2.x L2.y
  let r1 := knee_r_back radius len1
  let c1 := dirCos (L2.x - L4.x) (L2.y - L4.y)
  let s1 := dirSin (L2.x - L4.x) (L2.y - L4.y)
  let x3 := L2.x - r1 * c1
  let y3 := L2.y - r1 * s1
  let len2 := seg_len L2.x L2.y L0.x L0.y
  let r2 := knee_r_fwd radius len2
  let c2 := dirCos (L0.x - L2.x) (L0.y - L2.y)
  let s2 := dirSin (L0.x - L2.x) (L0.y - L2.y)
  let x2 := L2.x + r2 * c2
  let y2 := L2.y + r2 * s2
  let cx := (x3 + L2.x + x2) / 3
  let cy := (y3 + L2.y + y2) / 3
  let in1 := cx - x3
  let out1 := cy - y3
  let in2 := x2 - x3
  let out2 := y2 - y3
  let a3 := (out2 / in2 - out1 / in1) / (in2 - in1)
  let b3 := out1 / in1 - a3 * in1
  ((segs.set (i - 4) ⟨L4.x, L4.y, 0, b4⟩).set (i - 2) ⟨x2, y2, 0, b2⟩).set (i - 3)
    ⟨x3, y3, a3, b3⟩

/-- The rounding loop driver: `for (i = 4; segments[i - 2].x; i += 2)`;
returns the rewritten array and the exit index.  The loop stops at the first
zero-x entry; beyond the built knots the zeroed allocation always provides
one, which bounds the iteration. -/
noncomputable def knee_loop (radius : ℝ) (segs : List CompandSegment) (i : ℕ) :
    List CompandSegment × ℕ :=
  if h : (getSeg segs (i - 2)).x ≠ 0 then
    knee_loop radius (knee_step radius segs i) (i + 2)
  else (segs, i)
termination_by segs.length + 4 - i
decreasing_by
  have hlt : i - 2 < segs.length := by
    by_contra hge
    exact h (congrArg CompandSegment.x (List.getD_eq_default _ _ (by omega)))
  simp only [knee_step, List.length_set]
  omega

/-- The dB-to-natural-log conversion loop (config_output lines 426-430):
`for (i = 0; !i || segments[i - 2].x; i += 2)` adds the output gain to each
knot's y and scales both coordinates by `ln 10 / 20`; it converts every knot
up to and including the first zero-x knot. -/
noncomputable def convert_loop (gain c : ℝ) (segs : List CompandSegment) (i : ℕ) :
    List CompandSegment :=
  if h : i = 0 ∨ (getSeg segs (i - 2)).x ≠ 0 then
    convert_loop gain c
      (segs.set i ⟨(getSeg segs i).x * c, ((getSeg segs i).y + gain) * c,
        (getSeg segs i).a, (getSeg segs i).b⟩) (i + 2)
  else segs
termination_by segs.length + 4 - i
decreasing_by
  rcases h with h0 | hx
  · subst h0
    simp only [List.length_set]
    omega
  · have hlt : i - 2 < segs.length := by
      by_contra hge
      exact hx (congrArg CompandSegment.x (List.getD_eq_default _ _ (by omega)))
    simp only [List.length_set]
    omega

/-- The knot-deletion shift of the colinear merge (config_output lines
422-423): `for (j = i; j < num; j++) S(j) = S(j + 1)` on the stride-2 knot
indexing; `cnt` is the number of copies `num - j`. -/
noncomputable def shift_knots :
    ℕ → List CompandSegment → ℕ → List CompandSegment
  | 0, segs, _ => segs
  | cnt + 1, segs, j =>
    shift_knots cnt (segs.set (2 * j) (getSeg segs (2 * j + 2))) (j + 1)

/-- The colinear-merge loop (config_output lines 413-424): at knot index `i`
compare the two cross products `g1`, `g2`; when `fabs (g1 - g2)` is zero the
middle knot `i - 1` is deleted and the same position is re-tested, otherwise
`i` advances.  Returns the array and the remaining knot count. -/
noncomputable def merge_loop (segs : List CompandSegment) (i num : ℕ) :
    List CompandSegment × ℕ :=
  if _h : i < num then
    (if |(((getSeg segs (2 * (i - 1))).y - (getSeg segs (2 * (i - 2))).y) *
          ((getSeg segs (2 * i)).x - (getSeg segs (2 * (i - 1))).x)) -
         (((getSeg segs (2 * i)).y - (getSeg segs (2 * (i - 1))).y) *
          ((getSeg segs (2 * (i - 1))).x - (getSeg segs (2 * (i - 2))).x))| ≠ 0 then
      merge_loop segs (i + 1) num
    else merge_loop (shift_knots (num - i) segs (i - 1)) i (num - 1))
  else (segs, num)
termination_by 2 * num - i
decreasing_by
  · omega
  · omega

/-- The point-storing loop of config_output (lines 382-398) after
validation: point `i` is written to array index `2 * (i + 1)` with its gain
excess `y - x` as y. -/
noncomputable def store_points :
    List CompandSegment → List (ℝ × ℝ) → ℕ → List CompandSegment
  | segs, [], _ => segs
  | segs, (x, y) :: rest, i =>
    store_points (segs.set (2 * (i + 1)) ⟨x, y - x, 0, 0⟩) rest (i + 1)

/-- The curve-building part of config_output (lines 343-471) on validated
points: allocate `(nb_points + 4) * 2` zeroed segments, store the points,
append the implicit (0, 0) knot when the last x is nonzero, prepend the tail
extension knot at `firstKnot.x - 2 * curve_dB`, merge colinear knots, convert
to natural-log domain with the output gain applied, run the soft-knee
rounding loop, write the final sentinel half-knot, and record the floor
thresholds `in_min_lin = exp (segments[1].x)`, `out_min_lin =
exp (segments[1].y)`. -/
noncomputable def config_curve (points : List (ℝ × ℝ)) (curve_dB gain_dB : ℝ) :
    CompandState :=
  let radius := curve_dB * lnTen / 20
  let nb := points.length
  let segs1 := store_points (List.replicate (2 * (nb + 4)) zeroSeg) points 0
  let num2 := if nb = 0 ∨ (getSeg segs1 (2 * nb)).x ≠ 0 then nb + 1 else nb
  let segs2 := segs1.set 0
    ⟨(getSeg segs1 2).x - 2 * curve_dB, (getSeg segs1 2).y, 0, 0⟩
  let num3 := num2 + 1
  let m := merge_loop segs2 2 num3
  let segs4 := convert_loop gain_dB (lnTen / 20) m.1 0
  let k := knee_loop radius segs4 4
  let segs6 := k.1.set (k.2 - 3)
    ⟨0, (getSeg k.1 (k.2 - 2)).y, (getSeg k.1 (k.2 - 3)).a, (getSeg k.1 (k.2 - 3)).b⟩
  ⟨segs6, Real.exp ((getSeg segs6 1).x), Real.exp ((getSeg segs6 1).y)⟩

/-- The compander state built from the default options: control points
(-70, -70) and (-60, -20) dB, soft-knee 0.01 dB, output gain 0 dB. -/
noncomputable def default_state : CompandState :=
  config_curve [(-70, -70), (-60, -20)] (1 / 100) 0

/-- Default build, stage 1: the segment array after the two default points
are stored at knot indices 1 and 2 (array indices 2 and 4) with their gain
excesses. -/
noncomputable def c2L1 : List CompandSegment :=
  [zeroSeg, zeroSeg, ⟨-70, 0, 0, 0⟩, zeroSeg, ⟨-60, 40, 0, 0⟩, zeroSeg,
   zeroSeg, zeroSeg, zeroSeg, zeroSeg, zeroSeg, zeroSeg]

/-- Default build, stage 2: after the tail-extension knot
(x = -70 - 2 * 0.01) is written at array index 0. -/
noncomputable def c2L2 : List CompandSegment :=
  [⟨-3501/50, 0, 0, 0⟩, zeroSeg, ⟨-70, 0, 0, 0⟩, zeroSeg, ⟨-60, 40, 0, 0⟩, zeroSeg,
   zeroSeg, zeroSeg, zeroSeg, zeroSeg, zeroSeg, zeroSeg]

/-- Default build, stage 3: after the dB-to-natural-log conversion (gain 0);
every knot coordinate is scaled by `ln 10 / 20`. -/
noncomputable def c2L3 : List CompandSegment :=
  [⟨-3501/50 * (lnTen / 20), 0, 0, 0⟩, zeroSeg, ⟨-70 * (lnTen / 20), 0, 0, 0⟩, zeroSeg,
   ⟨-60 * (lnTen / 20), 40 * (lnTen / 20), 0, 0⟩, zeroSeg, zeroSeg, zeroSeg, zeroSeg,
   zeroSeg, zeroSeg, zeroSeg]

/-- Default build, conversion in progress: only the tail knot converted. -/
noncomputable def c2M1 : List CompandSegment :=
  [⟨-3501/50 * (lnTen / 20), 0, 0, 0⟩, zeroSeg, ⟨-70, 0, 0, 0⟩, zeroSeg, ⟨-60, 40, 0, 0⟩,
   zeroSeg, zeroSeg, zeroSeg, zeroSeg, zeroSeg, zeroSeg, zeroSeg]

/-- Default build, conversion in progress: tail and -70 dB knots converted. -/
noncomputable def c2M2 : List CompandSegment :=
  [⟨-3501/50 * (lnTen / 20), 0, 0, 0⟩, zeroSeg, ⟨-70 * (lnTen / 20), 0, 0, 0⟩, zeroSeg,
   ⟨-60, 40, 0, 0⟩, zeroSeg, zeroSeg, zeroSeg, zeroSeg, zeroSeg, zeroSeg, zeroSeg]

/-- The knee radius of the default configuration: 0.01 dB in natural-log
units. -/
noncomputable def c2rad : ℝ :=
  1 / 100 * lnTen / 20

/-- Default build: the array after the first knee-rounding iteration (corner
at the -70 dB knot, array index 2). -/
noncomputable def c2K1 : List CompandSegment :=
  knee_step c2rad c2L3 4

/-- Default build: the array after the second knee-rounding iteration (corner
at the -60 dB knot, array index 4). -/
noncomputable def c2K2 : List CompandSegment :=
  knee_step c2rad c2K1 6

/-- Default build: the final segment array, after the trailing half-knot at
array index 5 is zeroed (the post-loop `L(3).x = 0; L(3).y = L(2).y`). -/
noncomputable def c2segs : List CompandSegment :=
  c2K2.set 5 ⟨0, (getSeg c2K2 6).y, (getSeg c2K2 5).a, (getSeg c2K2 5).b⟩

end Compand

namespace Compand

/-- C1: for every level `v` strictly below the floor threshold `in_min_lin`
the evaluator returns the floor gain `out_min_lin` directly, and since the
builder always sets `in_min_lin = exp (...) > 0`, the level `v = 0` is such a
level: evaluating at input magnitude exactly 0 yields the floor gain without
ever taking a logarithm (no fault). -/
theorem get_volume_floor (s : CompandState) (t : ℝ) (h : s.in_min_lin = Real.exp t) :
    (∀ v : ℝ, v < s.in_min_lin → get_volume s v = some s.out_min_lin) ∧
    get_volume s 0 = some s.out_min_lin := by
  constructor
  · intro v hv
    simp [get_volume, hv]
  · have h0 : (0:ℝ) < s.in_min_lin := h ▸ Real.exp_pos t
    simp [get_volume, h0]

/-- Witness for C1 at a concrete state with `in_min_lin = exp 0`. -/
theorem get_volume_floor_witness :
    get_volume ⟨[], Real.exp 0, 5⟩ 0 = some 5 :=
  (get_volume_floor ⟨[], Real.exp 0, 5⟩ 0 rfl).2

/-- C9: the envelope update adds `delta * attack` on rising input and
`delta * decay` on falling input; the setup derives coefficient `1` whenever
the user time constant is at most one sample period; and with both
coefficients equal to `1` the volume after an update equals the rectified
input exactly. -/
theorem update_volume_spec (cp : ChanParam) (x : ℝ) :
    (update_volume cp x =
      if x - cp.volume > 0 then
        { cp with volume := cp.volume + (x - cp.volume) * cp.attack }
      else
        { cp with volume := cp.volume + (x - cp.volume) * cp.decay }) ∧
    (∀ t rate : ℝ, t ≤ 1 / rate → derive_coeff t rate = 1) ∧
    (cp.attack = 1 → cp.decay = 1 → (update_volume cp |x|).volume = |x|) := by
  refine ⟨rfl, ?_, ?_⟩
  · intro t rate ht
    unfold derive_coeff
    rw [if_neg (not_lt.mpr ht)]
  · intro ha hd
    by_cases hpos : |x| - cp.volume > 0
    · simp only [update_volume, if_pos hpos, ha]
      ring
    · simp only [update_volume, if_neg hpos, hd]
      ring

/-- Witness for C9 at concrete inputs: an instantaneous channel tracking a
sample of magnitude 3, and a time constant of one sample period at 44100 Hz. -/
theorem update_volume_spec_witness :
    (update_volume ⟨1, 1, 1/2⟩ |(-3 : ℝ)|).volume = |(-3 : ℝ)| ∧
    derive_coeff (1/44100) 44100 = 1 :=
  ⟨(update_volume_spec ⟨1, 1, 1/2⟩ (-3)).2.2 rfl rfl,
   (update_volume_spec ⟨1, 1, 1/2⟩ 0).2.1 (1/44100) 44100 (by norm_num)⟩

lemma MOD_succ_lt {cap i : ℕ} (hcap : 0 < cap) (hi : i < cap) :
    MOD (i + 1) cap < cap := by
  unfold MOD
  split <;> omega

lemma MOD_succ_eq_mod {cap i : ℕ} (hi : i < cap) :
    MOD (i + 1) cap = (i + 1) % cap := by
  unfold MOD
  split
  · rename_i h
    have hc : i + 1 = cap := by omega
    simp [hc]
  · rename_i h
    exact (Nat.mod_eq_of_lt (by omega)).symm

lemma delay_step_count (s : CompandState) (cap : ℕ) (st : DelayChan) (x : ℝ) :
    (compand_delay_step s cap st x).1.count + (compand_delay_step s cap st x).2.length
      = st.count + 1 := by
  unfold compand_delay_step
  split <;> simp

lemma delay_step_count_le (s : CompandState) (cap : ℕ) (st : DelayChan) (x : ℝ) :
    st.count ≤ (compand_delay_step s cap st x).1.count := by
  unfold compand_delay_step
  split <;> simp

lemma delay_frame_count_le (s : CompandState) (cap : ℕ) (xs : List ℝ) (st : DelayChan) :
    st.count ≤ (compand_delay_frame s cap st xs).1.count := by
  induction xs generalizing st with
  | nil => simp [compand_delay_frame]
  | cons x xs ih =>
    calc st.count ≤ (compand_delay_step s cap st x).1.count := delay_step_count_le ..
    _ ≤ _ := ih _

/-- C4: while the buffer is filling each arriving sample is stored with no
output and the fill count increments; once the fill count has reached the
capacity, each arriving sample produces exactly one output read from the slot
about to be overwritten, before that slot is overwritten with the new sample;
and the fill count never decreases across a processed frame, so it never
drops back below the capacity during normal processing. -/
theorem compand_delay_fill_steady (s : CompandState) (cap : ℕ) (st : DelayChan) (x : ℝ) :
    (st.count < cap →
      (compand_delay_step s cap st x).2 = [] ∧
      (compand_delay_step s cap st x).1.count = st.count + 1 ∧
      (compand_delay_step s cap st x).1.buf = st.buf.set st.index x) ∧
    (cap ≤ st.count →
      (compand_delay_step s cap st x).2 =
        [(get_volume s (update_volume st.cp |x|).volume).map
          fun g => clipf (st.buf.getD st.index 0 * g) (-1) 1] ∧
      (compand_delay_step s cap st x).1.count = st.count ∧
      (compand_delay_step s cap st x).1.buf = st.buf.set st.index x) ∧
    (∀ xs : List ℝ, cap ≤ st.count → cap ≤ (compand_delay_frame s cap st xs).1.count) := by
  refine ⟨?_, ?_, ?_⟩
  · intro h
    simp [compand_delay_step, not_le.mpr h]
  · intro h
    simp [compand_delay_step, h]
  · intro xs h
    exact h.trans (delay_frame_count_le ..)

/-- Witness for C4: capacity 2, one stored sample and no output while
filling; steady state with a full buffer keeps the count at the capacity. -/
theorem compand_delay_fill_steady_witness :
    ((compand_delay_step ⟨[], 1, 2⟩ 2 ⟨0, 0, [0, 0], ⟨1, 1, 0⟩⟩ (3:ℝ)).2 = [] ∧
      (compand_delay_step ⟨[], 1, 2⟩ 2 ⟨0, 0, [0, 0], ⟨1, 1, 0⟩⟩ (3:ℝ)).1.count = 0 + 1 ∧
      (compand_delay_step ⟨[], 1, 2⟩ 2 ⟨0, 0, [0, 0], ⟨1, 1, 0⟩⟩ (3:ℝ)).1.buf
        = ([0, 0] : List ℝ).set 0 3) ∧
    (compand_delay_step ⟨[], 1, 2⟩ 2 ⟨2, 0, [4, 5], ⟨1, 1, 0⟩⟩ (3:ℝ)).1.count = 2 :=
  ⟨(compand_delay_fill_steady ⟨[], 1, 2⟩ 2 ⟨0, 0, [0, 0], ⟨1, 1, 0⟩⟩ 3).1 (by norm_num),
   ((compand_delay_fill_steady ⟨[], 1, 2⟩ 2 ⟨2, 0, [4, 5], ⟨1, 1, 0⟩⟩ 3).2.1
      (by norm_num)).2.1⟩

lemma delay_step_inv (s : CompandState) (cap : ℕ) (st : DelayChan) (x : ℝ)
    (hcap : 0 < cap) (hinv : DelayInv cap st) :
    DelayInv cap (compand_delay_step s cap st x).1 ∧
    (compand_delay_step s cap st x).1.index = (st.index + 1) % cap := by
  obtain ⟨hidx, hcount, hbuf⟩ := hinv
  unfold compand_delay_step
  split
  · exact ⟨⟨MOD_succ_lt hcap hidx, hcount, by simpa using hbuf⟩, MOD_succ_eq_mod hidx⟩
  · rename_i h
    exact ⟨⟨MOD_succ_lt hcap hidx, by simp; omega, by simpa using hbuf⟩,
      MOD_succ_eq_mod hidx⟩

lemma delay_frame_inv (s : CompandState) (cap : ℕ) (xs : List ℝ) (st : DelayChan)
    (hcap : 0 < cap) (hinv : DelayInv cap st) :
    DelayInv cap (compand_delay_frame s cap st xs).1 := by
  induction xs generalizing st with
  | nil => simpa [compand_delay_frame] using hinv
  | cons x xs ih =>
    exact ih _ (delay_step_inv s cap st x hcap hinv).1

lemma drain_read_index (s : CompandState) (cap : ℕ) (buf : List ℝ) (vol : ℝ)
    (hcap : 0 < cap) :
    ∀ n idx, idx < cap → (drain_read s cap buf vol idx n).2 < cap := by
  intro n
  induction n with
  | zero => intro idx h; simpa [drain_read] using h
  | succ n ih =>
    intro idx h
    simpa [drain_read] using ih _ (MOD_succ_lt hcap h)

lemma drain_inv (s : CompandState) (cap : ℕ) (st : DelayChan)
    (hcap : 0 < cap) (hinv : DelayInv cap st) :
    DelayInv cap (compand_drain s cap st).1 := by
  obtain ⟨hidx, hcount, hbuf⟩ := hinv
  exact ⟨drain_read_index s cap st.buf st.cp.volume hcap _ _ hidx, by simp [compand_drain]; omega,
    hbuf⟩

/-- C10: with a positive capacity, the delay-line invariant (write index
inside the buffer, fill count at most the capacity, buffer length equal to
the capacity) is preserved by every per-sample step, every processed frame
and every drain call, and the index advances by exactly one modulo the
capacity per sample; hence every circular-buffer access is inside the
allocated per-channel buffers. -/
theorem delay_invariants (s : CompandState) (cap : ℕ) (st : DelayChan)
    (hcap : 0 < cap) (hinv : DelayInv cap st) :
    (∀ x : ℝ, DelayInv cap (compand_delay_step s cap st x).1 ∧
      (compand_delay_step s cap st x).1.index = (st.index + 1) % cap) ∧
    (∀ xs : List ℝ, DelayInv cap (compand_delay_frame s cap st xs).1) ∧
    DelayInv cap (compand_drain s cap st).1 := by
  exact ⟨fun x => delay_step_inv s cap st x hcap hinv,
    fun xs => delay_frame_inv s cap xs st hcap hinv,
    drain_inv s cap st hcap hinv⟩

/-- Witness for C10 at capacity 2 from the freshly allocated state. -/
theorem delay_invariants_witness :
    DelayInv 2 (compand_delay_step ⟨[], 1, 2⟩ 2 (init_chan 2 ⟨1, 1, 0⟩) (3:ℝ)).1 ∧
    (compand_delay_step ⟨[], 1, 2⟩ 2 (init_chan 2 ⟨1, 1, 0⟩) (3:ℝ)).1.index = (0 + 1) % 2 ∧
    DelayInv 2 (compand_drain ⟨[], 1, 2⟩ 2 (init_chan 2 ⟨1, 1, 0⟩)).1 := by
  have h := delay_invariants ⟨[], 1, 2⟩ 2 (init_chan 2 ⟨1, 1, 0⟩) (by norm_num)
    ⟨by simp [init_chan], by simp [init_chan], by simp [init_chan]⟩
  exact ⟨(h.1 3).1, (h.1 3).2, h.2.2⟩

lemma drain_read_length (s : CompandState) (cap : ℕ) (buf : List ℝ) (vol : ℝ) :
    ∀ n idx, (drain_read s cap buf vol idx n).1.length = n := by
  intro n
  induction n with
  | zero => intro idx; simp [drain_read]
  | succ n ih => intro idx; simp [drain_read, ih]

lemma drain_read_mem (s : CompandState) (cap : ℕ) (buf : List ℝ) (vol : ℝ) :
    ∀ n idx o, o ∈ (drain_read s cap buf vol idx n).1 →
      ∃ w, o = (get_volume s vol).map fun g => clipf (w * g) (-1) 1 := by
  intro n
  induction n with
  | zero => intro idx o ho; simp [drain_read] at ho
  | succ n ih =>
    intro idx o ho
    simp only [drain_read, List.mem_cons] at ho
    rcases ho with ho | ho
    · exact ⟨buf.getD idx 0, ho⟩
    · exact ih _ o ho

lemma delay_frame_count (s : CompandState) (cap : ℕ) (xs : List ℝ) (st : DelayChan) :
    (compand_delay_frame s cap st xs).1.count + (compand_delay_frame s cap st xs).2.length
      = st.count + xs.length := by
  induction xs generalizing st with
  | nil => simp [compand_delay_frame]
  | cons x xs ih =>
    have hstep := delay_step_count s cap st x
    have hih := ih (compand_delay_step s cap st x).1
    simp only [compand_delay_frame, List.length_append, List.length_cons]
    omega

lemma process_frames_count (s : CompandState) (cap : ℕ) (fs : List (List ℝ)) (st : DelayChan) :
    (process_frames s cap st fs).1.count + (process_frames s cap st fs).2.length
      = st.count + (fs.map List.length).sum := by
  induction fs generalizing st with
  | nil => simp [process_frames]
  | cons f fs ih =>
    have hframe := delay_frame_count s cap f st
    have hih := ih (compand_delay_frame s cap st f).1
    simp only [process_frames, List.length_append, List.map_cons, List.sum_cons]
    omega

lemma drain_all_length (s : CompandState) (cap : ℕ) :
    ∀ n (st : DelayChan), st.count = n → (drain_all s cap st).2.length = st.count := by
  intro n
  induction n using Nat.strong_induction_on with
  | _ n ih =>
    intro st hst
    rw [drain_all]
    split
    · rename_i h0
      simp [h0]
    · rename_i h0
      have hc : (compand_drain s cap st).1.count = st.count - min 2048 st.count := rfl
      have hlt : (compand_drain s cap st).1.count < n := by omega
      have hrec := ih _ hlt (compand_drain s cap st).1 rfl
      have hlen : (compand_drain s cap st).2.length = min 2048 st.count :=
        drain_read_length s cap st.buf st.cp.volume _ _
      simp only [List.length_append, hrec, hlen, hc]
      omega

/-- C3: a drain call emits exactly `min 2048 delay_count` buffered samples
(chunks of at most 2048), leaves the envelope untouched, computes every
emitted sample's gain from the frozen envelope volume, and repeated draining
after end-of-stream empties the buffer exactly: the samples emitted during
filling, steady state and drain together equal the samples fed in. -/
theorem compand_drain_spec (s : CompandState) (cap : ℕ) (st : DelayChan)
    (cp : ChanParam) (frames : List (List ℝ)) :
    (compand_drain s cap st).2.length = min 2048 st.count ∧
    (compand_drain s cap st).1.cp = st.cp ∧
    (∀ o ∈ (compand_drain s cap st).2,
      ∃ w, o = (get_volume s st.cp.volume).map fun g => clipf (w * g) (-1) 1) ∧
    (process_frames s cap (init_chan cap cp) frames).2.length
        + (drain_all s cap (process_frames s cap (init_chan cap cp) frames).1).2.length
      = (frames.map List.length).sum := by
  refine ⟨drain_read_length s cap st.buf st.cp.volume _ _, rfl, ?_, ?_⟩
  · intro o ho
    exact drain_read_mem s cap st.buf st.cp.volume _ _ o ho
  · have hdr := drain_all_length s cap
      (process_frames s cap (init_chan cap cp) frames).1.count
      (process_frames s cap (init_chan cap cp) frames).1 rfl
    have hin := process_frames_count s cap frames (init_chan cap cp)
    have h0 : (init_chan cap cp).count = 0 := rfl
    omega

/-- Witness for C3: a one-sample buffer drained in one chunk; the emitted
sample is gained from the frozen volume 0; two fed frames of total length 3
come back out in full after draining. -/
theorem compand_drain_spec_witness :
    (compand_drain ⟨[], 1, 2⟩ 1 ⟨1, 0, [5], ⟨1, 1, 0⟩⟩).2.length = min 2048 1 ∧
    (compand_drain ⟨[], 1, 2⟩ 1 ⟨1, 0, [5], ⟨1, 1, 0⟩⟩).1.cp = ⟨1, 1, 0⟩ ∧
    (∃ w, (some (clipf ((5:ℝ) * 2) (-1) 1) : Option ℝ)
        = (get_volume ⟨[], 1, 2⟩ (0:ℝ)).map fun g => clipf (w * g) (-1) 1) ∧
    (process_frames ⟨[], 1, 2⟩ 1 (init_chan 1 ⟨1, 1, 0⟩) [[1], [2, 3]]).2.length
        + (drain_all ⟨[], 1, 2⟩ 1
            (process_frames ⟨[], 1, 2⟩ 1 (init_chan 1 ⟨1, 1, 0⟩) [[1], [2, 3]]).1).2.length
      = (([[1], [2, 3]] : List (List ℝ)).map List.length).sum := by
  have h := compand_drain_spec ⟨[], 1, 2⟩ 1 ⟨1, 0, [5], ⟨1, 1, 0⟩⟩ ⟨1, 1, 0⟩ [[1], [2, 3]]
  refine ⟨h.1, h.2.1, ?_, h.2.2.2⟩
  have hvol : get_volume ⟨[], 1, 2⟩ (0:ℝ) = some 2 := by
    simp [get_volume]
  refine ⟨5, ?_⟩
  rw [hvol]
  rfl

/-- C6 counterexample: at delay 0.099 s and sample rate 10 Hz the assignment
truncates `0.99` to `0` samples and disables the delay path, while
rounding (what the claim states) would give `1` and enable it. -/
theorem select_mode_round_counterexample :
    ctrunc ((99/1000 : ℚ) * ((10:ℤ) : ℚ)) ≠ round ((99/1000 : ℚ) * ((10:ℤ) : ℚ)) ∧
    (select_mode (99/1000) 10).1 = CompandMode.nodelay ∧
    (0 : ℤ) < round ((99/1000 : ℚ) * ((10:ℤ) : ℚ)) := by
  have h1 : ctrunc ((99/1000 : ℚ) * ((10:ℤ) : ℚ)) = 0 := by
    norm_num [ctrunc]
  have h2 : round ((99/1000 : ℚ) * ((10:ℤ) : ℚ)) = 1 := by
    norm_num [round_eq]
  refine ⟨by rw [h1, h2]; norm_num, ?_, by rw [h2]; norm_num⟩
  simp only [select_mode]
  rw [if_pos (by rw [h1])]

/-- C6 as amended: the delay in seconds is converted exactly once by C int
truncation (toward zero), `capacitySamples = trunc (delaySeconds *
sampleRate)`; a computed value of at most 0 selects the non-delay mode and a
positive value selects delay mode with that capacity. -/
theorem select_mode_spec (delay : ℚ) (rate : ℤ) :
    (select_mode delay rate).2 = ctrunc (delay * rate) ∧
    (ctrunc (delay * rate) ≤ 0 → (select_mode delay rate).1 = CompandMode.nodelay) ∧
    (0 < ctrunc (delay * rate) → (select_mode delay rate).1 = CompandMode.delay) := by
  simp only [select_mode]
  split_ifs with h
  · exact ⟨rfl, fun _ => rfl, fun hpos => absurd hpos (by omega)⟩
  · exact ⟨rfl, fun hle => absurd hle h, fun _ => rfl⟩

/-- Witness for C6: half a second at 10 Hz gives capacity 5 and delay mode;
zero delay gives the non-delay mode. -/
theorem select_mode_spec_witness :
    (select_mode (1/2) 10).1 = CompandMode.delay ∧
    (select_mode 0 10).1 = CompandMode.nodelay :=
  ⟨(select_mode_spec (1/2) 10).2.2 (by norm_num [ctrunc]),
   (select_mode_spec 0 10).2.1 (by norm_num [ctrunc])⟩

/-- C7 counterexample: two channels with a single attack and a single decay
pass the setup checks (the code only rejects counts bigger than the channel
count), although the claim says any count different from the channel count is
rejected. -/
theorem config_times_counterexample :
    config_times_check 2 [3/10] [4/5] = .ok () ∧
    (([(3:ℚ)/10].length : ℤ) ≠ 2) := by
  constructor
  · simp only [config_times_check, List.any_cons, List.any_nil]
    norm_num
  · norm_num

/-- C7 as amended: setup fails when more attacks or decays are supplied than
there are channels, when a time constant is negative, when the attack count
differs from the decay count, or when the channel count is non-positive; it
succeeds exactly when the channel count is positive, both counts are at most
the channel count, all time constants are non-negative, and the attack count
equals the decay count (counts smaller than the channel count are
accepted). -/
theorem config_times_spec (channels : ℤ) (attacks decays : List ℚ) :
    config_times_check channels attacks decays = .ok () ↔
      (0 < channels ∧ (attacks.length : ℤ) ≤ channels ∧ (decays.length : ℤ) ≤ channels ∧
       (∀ a ∈ attacks, 0 ≤ a) ∧ (∀ d ∈ decays, 0 ≤ d) ∧
       attacks.length = decays.length) := by
  unfold config_times_check
  split_ifs with h1 h2 h3 h4 h5
  · simp only [false_iff]
    intro hc
    omega
  · simp only [false_iff]
    intro hc
    omega
  · simp only [false_iff]
    intro hc
    rw [List.any_eq_true] at h3
    obtain ⟨a, ha, hlt⟩ := h3
    exact absurd (hc.2.2.2.1 a ha) (by simpa using hlt)
  · simp only [false_iff]
    intro hc
    rw [List.any_eq_true] at h4
    obtain ⟨d, hd, hlt⟩ := h4
    exact absurd (hc.2.2.2.2.1 d hd) (by simpa using hlt)
  · simp only [false_iff]
    intro hc
    exact h5 hc.2.2.2.2.2
  · simp only [true_iff]
    push_neg at h2
    refine ⟨by omega, h2.1, h2.2, ?_, ?_, not_ne_iff.mp h5⟩
    · intro a ha
      by_contra hneg
      exact h3 (List.any_eq_true.mpr ⟨a, ha, decide_eq_true (not_le.mp hneg)⟩)
    · intro d hd
      by_contra hneg
      exact h4 (List.any_eq_true.mpr ⟨d, hd, decide_eq_true (not_le.mp hneg)⟩)

/-- Witness for C7 amended claim: one channel, one attack, one decay. -/
theorem config_times_spec_witness :
    config_times_check 1 [3/10] [4/5] = .ok () :=
  (config_times_spec 1 [3/10] [4/5]).mpr (by norm_num)

lemma parse_points_go_none_mem :
    ∀ (items : List (Option (ℚ × ℚ))) (prev : Option ℚ), none ∈ items →
      parse_points_go prev items = .error .invalidConfig := by
  intro items
  induction items with
  | nil => intro prev h; simp at h
  | cons it rest ih =>
    intro prev h
    match it with
    | none => rfl
    | some (x, y) =>
      simp only [List.mem_cons] at h
      rcases h with h | h
      · exact absurd h.symm (by simp)
      · unfold parse_points_go
        split
        · rfl
        · rw [ih (some x) h]

lemma parse_points_go_ok :
    ∀ (pts : List (ℚ × ℚ)) (prev : Option ℚ),
      (∀ px p, prev = some px → pts.head? = some p → px ≤ p.1) →
      List.Chain' (fun p q : ℚ × ℚ => p.1 ≤ q.1) pts →
      parse_points_go prev (pts.map some) = .ok (pts.map fun p => (p.1, p.2 - p.1)) := by
  intro pts
  induction pts with
  | nil => intro prev _ _; rfl
  | cons p rest ih =>
    intro prev hhead hchain
    have hbad : ¬ prev.getD p.1 > p.1 := by
      match prev with
      | none => simp
      | some px => simpa using hhead px p rfl rfl
    have hrest : parse_points_go (some p.1) (rest.map some)
        = .ok (rest.map fun q => (q.1, q.2 - q.1)) := by
      refine ih (some p.1) ?_ hchain.tail
      intro px q hpx hq
      obtain ⟨rest1, hr⟩ : ∃ l, rest = q :: l := by
        cases rest with
        | nil => simp at hq
        | cons a l => simp at hq; exact ⟨l, by rw [hq]⟩
      cases hpx
      subst hr
      exact (List.chain'_cons.mp hchain).1
    simp only [List.map_cons]
    unfold parse_points_go
    rw [if_neg hbad, hrest]

lemma parse_points_go_err :
    ∀ (pts : List (ℚ × ℚ)) (prev : Option ℚ),
      ¬ List.Chain' (fun p q : ℚ × ℚ => p.1 ≤ q.1) pts →
      parse_points_go prev (pts.map some) = .error .invalidConfig := by
  intro pts
  induction pts with
  | nil => intro prev h; exact absurd List.chain'_nil h
  | cons p rest ih =>
    intro prev h
    simp only [List.map_cons]
    unfold parse_points_go
    split
    · rfl
    · rename_i hbad
      cases rest with
      | nil => exact absurd (List.chain'_singleton p) h
      | cons q rest2 =>
        by_cases hpq : p.1 ≤ q.1
        · have hnc : ¬ List.Chain' (fun p q : ℚ × ℚ => p.1 ≤ q.1) (q :: rest2) := by
            intro hc
            exact h (List.chain'_cons.mpr ⟨hpq, hc⟩)
          rw [ih (some p.1) hnc]
        · have : parse_points_go (some p.1) ((q :: rest2).map some)
              = .error .invalidConfig := by
            simp only [List.map_cons]
            unfold parse_points_go
            rw [if_pos (by simpa using not_le.mp hpq)]
          rw [this]

/-- C8: the control-point loop rejects any list in which some point's x is
smaller than its predecessor's, accepts every list whose x-values are
non-decreasing (equal consecutive x-values included) storing each accepted
point's gain excess `y - x`, and rejects any list containing a point whose
fields cannot be parsed. -/
theorem parse_points_spec (items : List (Option (ℚ × ℚ))) (pts : List (ℚ × ℚ)) :
    (none ∈ items → parse_points items = .error .invalidConfig) ∧
    (items = pts.map some →
      (List.Chain' (fun p q : ℚ × ℚ => p.1 ≤ q.1) pts →
        parse_points items = .ok (pts.map fun p => (p.1, p.2 - p.1))) ∧
      (¬ List.Chain' (fun p q : ℚ × ℚ => p.1 ≤ q.1) pts →
        parse_points items = .error .invalidConfig)) := by
  constructor
  · intro h
    exact parse_points_go_none_mem items none h
  · rintro rfl
    constructor
    · intro hchain
      exact parse_points_go_ok pts none (by intro px p hpx; cases hpx) hchain
    · intro hchain
      exact parse_points_go_err pts none hchain

/-- Witness for C8: the default curve points, a duplicated-x list, a
descending list, and an unparseable entry. -/
theorem parse_points_spec_witness :
    parse_points [some ((-70:ℚ), (-70:ℚ)), some ((-60:ℚ), (-20:ℚ))]
      = .ok [((-70:ℚ), (0:ℚ)), ((-60:ℚ), (40:ℚ))] ∧
    parse_points [some ((-60:ℚ), (-70:ℚ)), some ((-60:ℚ), (-20:ℚ))]
      = .ok [((-60:ℚ), (-10:ℚ)), ((-60:ℚ), (40:ℚ))] ∧
    parse_points [some ((-60:ℚ), (-20:ℚ)), some ((-70:ℚ), (-70:ℚ))]
      = .error .invalidConfig ∧
    parse_points [some ((-70:ℚ), (-70:ℚ)), none] = .error .invalidConfig := by
  refine ⟨?_, ?_, ?_, ?_⟩
  · have h := ((parse_points_spec _ [((-70:ℚ), (-70:ℚ)), ((-60:ℚ), (-20:ℚ))]).2 rfl).1
      (by simp [List.chain'_cons]; norm_num)
    simp only [List.map_cons, List.map_nil] at h
    rw [h]
    norm_num
  · have h := ((parse_points_spec _ [((-60:ℚ), (-70:ℚ)), ((-60:ℚ), (-20:ℚ))]).2 rfl).1
      (by simp [List.chain'_cons])
    simp only [List.map_cons, List.map_nil] at h
    rw [h]
    norm_num
  · exact ((parse_points_spec _ [((-60:ℚ), (-20:ℚ)), ((-70:ℚ), (-70:ℚ))]).2 rfl).2
      (by simp [List.chain'_cons]; norm_num)
  · exact (parse_points_spec [some ((-70:ℚ), (-70:ℚ)), none] []).1 (by simp)

lemma getSeg_set_self {l : List CompandSegment} {i : ℕ} (h : i < l.length)
    (v : CompandSegment) : getSeg (l.set i v) i = v := by
  unfold getSeg
  rw [List.getD_eq_getD_get?, List.get?_set_eq_of_lt _ h]
  rfl

lemma getSeg_set_ne {l : List CompandSegment} {i j : ℕ} (h : i ≠ j)
    (v : CompandSegment) : getSeg (l.set i v) j = getSeg l j := by
  unfold getSeg
  rw [List.getD_eq_getD_get?, List.get?_set_ne _ _ h, ← List.getD_eq_getD_get?]

lemma get?_eq_some_getSeg {l : List CompandSegment} {j : ℕ} (h : j < l.length) :
    l.get? j = some (getSeg l j) := by
  unfold getSeg
  rw [List.getD_eq_getD_get?]
  cases hg : l.get? j with
  | none => exact absurd (List.get?_eq_none.mp hg) (by omega)
  | some v => rfl

lemma dirCos_abs_le (dx dy : ℝ) : |dirCos dx dy| ≤ 1 := by
  unfold dirCos
  split
  · norm_num
  · rcases eq_or_lt_of_le (Real.sqrt_nonneg (dx ^ 2 + dy ^ 2)) with hs | hs
    · rw [← hs]
      norm_num
    · rw [abs_div, abs_of_pos hs, div_le_one hs]
      calc |dx| = Real.sqrt (dx ^ 2) := (Real.sqrt_sq_eq_abs dx).symm
      _ ≤ Real.sqrt (dx ^ 2 + dy ^ 2) := Real.sqrt_le_sqrt (by nlinarith [sq_nonneg dy])

lemma knee_r_back_bounds {radius len : ℝ} (hr : 0 ≤ radius) (hl : 0 ≤ len) :
    0 ≤ knee_r_back radius len ∧ knee_r_back radius len ≤ radius := by
  unfold knee_r_back
  exact ⟨le_min hr hl, min_le_left _ _⟩

lemma knee_r_fwd_bounds {radius len : ℝ} (hr : 0 ≤ radius) (hl : 0 ≤ len) :
    0 ≤ knee_r_fwd radius len ∧ knee_r_fwd radius len ≤ radius := by
  unfold knee_r_fwd
  exact ⟨le_min hr (by linarith), min_le_left _ _⟩

lemma knee_step_length (radius : ℝ) (segs : List CompandSegment) (i : ℕ) :
    (knee_step radius segs i).length = segs.length := by
  simp [knee_step]

lemma getSeg_knee_step_untouched (radius : ℝ) (segs : List CompandSegment) {i j : ℕ}
    (h4 : j ≠ i - 4) (h3 : j ≠ i - 3) (h2 : j ≠ i - 2) :
    getSeg (knee_step radius segs i) j = getSeg segs j := by
  unfold knee_step
  rw [getSeg_set_ne (by omega), getSeg_set_ne (by omega), getSeg_set_ne (by omega)]

lemma knee_step_back_x (radius : ℝ) (segs : List CompandSegment) {i : ℕ}
    (h4 : 4 ≤ i) (hl : i - 2 < segs.length) :
    (getSeg (knee_step radius segs i) (i - 3)).x
      = (getSeg segs (i - 2)).x
        - knee_r_back radius (seg_len (getSeg segs (i - 4)).x (getSeg segs (i - 4)).y
            (getSeg segs (i - 2)).x (getSeg segs (i - 2)).y)
          * dirCos ((getSeg segs (i - 2)).x - (getSeg segs (i - 4)).x)
            ((getSeg segs (i - 2)).y - (getSeg segs (i - 4)).y) := by
  unfold knee_step
  rw [getSeg_set_self (by simp only [List.length_set]; omega)]

lemma knee_step_fwd_x (radius : ℝ) (segs : List CompandSegment) {i : ℕ}
    (h4 : 4 ≤ i) (hl : i - 2 < segs.length) :
    (getSeg (knee_step radius segs i) (i - 2)).x
      = (getSeg segs (i - 2)).x
        + knee_r_fwd radius (seg_len (getSeg segs (i - 2)).x (getSeg segs (i - 2)).y
            (getSeg segs i).x (getSeg segs i).y)
          * dirCos ((getSeg segs i).x - (getSeg segs (i - 2)).x)
            ((getSeg segs i).y - (getSeg segs (i - 2)).y) := by
  unfold knee_step
  rw [getSeg_set_ne (by omega), getSeg_set_self (by simp only [List.length_set]; omega)]

lemma knee_step_x4 (radius : ℝ) (segs : List CompandSegment) {i : ℕ}
    (h4 : 4 ≤ i) (hl : i - 4 < segs.length) :
    (getSeg (knee_step radius segs i) (i - 4)).x = (getSeg segs (i - 4)).x := by
  unfold knee_step
  rw [getSeg_set_ne (by omega), getSeg_set_ne (by omega), getSeg_set_self (by omega)]

/-- C5 counterexample: with knee radius 5 at a corner whose previous segment
has length sqrt 2 and next segment length 5, the backward radius the code
uses is `min 5 (sqrt 2) = sqrt 2`, which exceeds half the shorter adjacent
segment length `sqrt 2 / 2`: the claim's cap does not hold. -/
theorem knee_radius_counterexample :
    ¬ (knee_r_back 5 (seg_len 0 0 1 1)
        ≤ min (seg_len 0 0 1 1) (seg_len 1 1 5 4) / 2) := by
  have h1 : seg_len 0 0 1 1 = Real.sqrt 2 := by
    unfold seg_len
    norm_num
  have h2 : seg_len 1 1 5 4 = 5 := by
    unfold seg_len
    rw [show ((5:ℝ) - 1) ^ 2 + ((4:ℝ) - 1) ^ 2 = 5 ^ 2 by norm_num]
    exact Real.sqrt_sq (by norm_num)
  have hs2 : 0 < Real.sqrt 2 := Real.sqrt_pos.mpr (by norm_num)
  have hs5 : Real.sqrt 2 ≤ 5 := by
    calc Real.sqrt 2 ≤ Real.sqrt 25 := Real.sqrt_le_sqrt (by norm_num)
    _ = 5 := by
        rw [show (25:ℝ) = 5 ^ 2 by norm_num]
        exact Real.sqrt_sq (by norm_num)
  rw [h1, h2]
  unfold knee_r_back
  rw [min_eq_right hs5, min_eq_left hs5]
  intro hle
  nlinarith

/-- C5 as amended: at each interior knot the rounding step places the knee
entry point at distance `min radius prevLen` (the configured radius capped at
the FULL previous segment length) back along the previous segment direction,
and the knee exit point at distance `min radius (nextLen / 2)` (capped at
half the next segment length) forward along the next segment direction; the
backward cap is the full previous length and only the forward cap is half a
segment length. -/
theorem knee_step_radii (radius : ℝ) (segs : List CompandSegment) (i : ℕ)
    (h4 : 4 ≤ i) (hl : i - 2 < segs.length) :
    ((getSeg (knee_step radius segs i) (i - 3)).x
      = (getSeg segs (i - 2)).x
        - knee_r_back radius (seg_len (getSeg segs (i - 4)).x (getSeg segs (i - 4)).y
            (getSeg segs (i - 2)).x (getSeg segs (i - 2)).y)
          * dirCos ((getSeg segs (i - 2)).x - (getSeg segs (i - 4)).x)
            ((getSeg segs (i - 2)).y - (getSeg segs (i - 4)).y)) ∧
    ((getSeg (knee_step radius segs i) (i - 2)).x
      = (getSeg segs (i - 2)).x
        + knee_r_fwd radius (seg_len (getSeg segs (i - 2)).x (getSeg segs (i - 2)).y
            (getSeg segs i).x (getSeg segs i).y)
          * dirCos ((getSeg segs i).x - (getSeg segs (i - 2)).x)
            ((getSeg segs i).y - (getSeg segs (i - 2)).y)) ∧
    (∀ len : ℝ, knee_r_back radius len ≤ len) ∧
    (∀ len : ℝ, knee_r_fwd radius len ≤ len / 2) := by
  exact ⟨knee_step_back_x radius segs h4 hl, knee_step_fwd_x radius segs h4 hl,
    fun len => min_le_right _ _, fun len => min_le_right _ _⟩

/-- Witness for C5 amended claim at a concrete three-knot array. -/
theorem knee_step_radii_witness :
    (getSeg (knee_step 5 [zeroSeg, zeroSeg, zeroSeg, zeroSeg, ⟨1, 1, 0, 0⟩, zeroSeg,
        ⟨5, 4, 0, 0⟩, zeroSeg] 6) 3).x
      = (getSeg [zeroSeg, zeroSeg, zeroSeg, zeroSeg, ⟨1, 1, 0, 0⟩, zeroSeg,
          ⟨5, 4, 0, 0⟩, zeroSeg] 4).x
        - knee_r_back 5 (seg_len (getSeg [zeroSeg, zeroSeg, zeroSeg, zeroSeg, ⟨1, 1, 0, 0⟩,
            zeroSeg, ⟨5, 4, 0, 0⟩, zeroSeg] 2).x (getSeg [zeroSeg, zeroSeg, zeroSeg, zeroSeg,
            ⟨1, 1, 0, 0⟩, zeroSeg, ⟨5, 4, 0, 0⟩, zeroSeg] 2).y
            (getSeg [zeroSeg, zeroSeg, zeroSeg, zeroSeg, ⟨1, 1, 0, 0⟩, zeroSeg,
            ⟨5, 4, 0, 0⟩, zeroSeg] 4).x (getSeg [zeroSeg, zeroSeg, zeroSeg, zeroSeg,
            ⟨1, 1, 0, 0⟩, zeroSeg, ⟨5, 4, 0, 0⟩, zeroSeg] 4).y)
          * dirCos ((getSeg [zeroSeg, zeroSeg, zeroSeg, zeroSeg, ⟨1, 1, 0, 0⟩, zeroSeg,
              ⟨5, 4, 0, 0⟩, zeroSeg] 4).x - (getSeg [zeroSeg, zeroSeg, zeroSeg, zeroSeg,
              ⟨1, 1, 0, 0⟩, zeroSeg, ⟨5, 4, 0, 0⟩, zeroSeg] 2).x)
            ((getSeg [zeroSeg, zeroSeg, zeroSeg, zeroSeg, ⟨1, 1, 0, 0⟩, zeroSeg,
              ⟨5, 4, 0, 0⟩, zeroSeg] 4).y - (getSeg [zeroSeg, zeroSeg, zeroSeg, zeroSeg,
              ⟨1, 1, 0, 0⟩, zeroSeg, ⟨5, 4, 0, 0⟩, zeroSeg] 2).y) :=
  (knee_step_radii 5 [zeroSeg, zeroSeg, zeroSeg, zeroSeg, ⟨1, 1, 0, 0⟩, zeroSeg,
    ⟨5, 4, 0, 0⟩, zeroSeg] 6 (by norm_num) (by norm_num)).1

lemma lnTen_pos : 0 < lnTen :=
  Real.log_pos (by norm_num)

lemma c2_stage_store :
    store_points (List.replicate 12 zeroSeg) [((-70:ℝ), (-70:ℝ)), ((-60:ℝ), (-20:ℝ))] 0
      = c2L1 := by
  norm_num [store_points, c2L1, List.replicate, List.set]

lemma c2_stage_tail :
    c2L1.set 0 ⟨(getSeg c2L1 2).x - 2 * (1 / 100), (getSeg c2L1 2).y, 0, 0⟩ = c2L2 := by
  norm_num [c2L1, c2L2, getSeg, List.set]

lemma c2_stage_merge : merge_loop c2L2 2 4 = (c2L2, 4) := by
  rw [merge_loop]
  norm_num [getSeg, c2L2, zeroSeg]
  rw [merge_loop]
  norm_num [getSeg, c2L2, zeroSeg]
  rw [merge_loop]
  norm_num

set_option maxHeartbeats 1000000 in
lemma c2_stage_convert : convert_loop 0 (lnTen / 20) c2L2 0 = c2L3 := by
  rw [convert_loop, dif_pos (Or.inl rfl)]
  have e1 : c2L2.set 0 ⟨(getSeg c2L2 0).x * (lnTen / 20),
      ((getSeg c2L2 0).y + 0) * (lnTen / 20),
      (getSeg c2L2 0).a, (getSeg c2L2 0).b⟩ = c2M1 := by
    norm_num [c2L2, c2M1, getSeg, List.set]
  rw [e1]
  rw [convert_loop, dif_pos (Or.inr (show (getSeg c2M1 (0 + 2 - 2)).x ≠ 0 from by
    norm_num [getSeg, c2M1, lnTen_pos.ne']))]
  have e2 : c2M1.set (0 + 2) ⟨(getSeg c2M1 (0 + 2)).x * (lnTen / 20),
      ((getSeg c2M1 (0 + 2)).y + 0) * (lnTen / 20),
      (getSeg c2M1 (0 + 2)).a, (getSeg c2M1 (0 + 2)).b⟩ = c2M2 := by
    norm_num [c2M1, c2M2, getSeg, List.set]
  rw [e2]
  rw [convert_loop, dif_pos (Or.inr (show (getSeg c2M2 (0 + 2 + 2 - 2)).x ≠ 0 from by
    norm_num [getSeg, c2M2, lnTen_pos.ne']))]
  have e3 : c2M2.set (0 + 2 + 2) ⟨(getSeg c2M2 (0 + 2 + 2)).x * (lnTen / 20),
      ((getSeg c2M2 (0 + 2 + 2)).y + 0) * (lnTen / 20),
      (getSeg c2M2 (0 + 2 + 2)).a, (getSeg c2M2 (0 + 2 + 2)).b⟩ = c2L3 := by
    norm_num [c2M2, c2L3, getSeg, List.set]
  rw [e3]
  rw [convert_loop, dif_pos (Or.inr (show (getSeg c2L3 (0 + 2 + 2 + 2 - 2)).x ≠ 0 from by
    norm_num [getSeg, c2L3, lnTen_pos.ne']))]
  have e4 : c2L3.set (0 + 2 + 2 + 2) ⟨(getSeg c2L3 (0 + 2 + 2 + 2)).x * (lnTen / 20),
      ((getSeg c2L3 (0 + 2 + 2 + 2)).y + 0) * (lnTen / 20),
      (getSeg c2L3 (0 + 2 + 2 + 2)).a, (getSeg c2L3 (0 + 2 + 2 + 2)).b⟩ = c2L3 := by
    norm_num [c2L3, getSeg, List.set, zeroSeg]
  rw [e4]
  rw [convert_loop, dif_neg (by norm_num [getSeg, c2L3, zeroSeg])]

lemma c2_stage_knee : knee_loop c2rad c2L3 4 = (c2K2, 8) := by
  have h1 : (getSeg c2L3 (4 - 2)).x ≠ 0 := by
    norm_num [getSeg, c2L3, lnTen_pos.ne']
  have h2 : (getSeg c2K1 (4 + 2 - 2)).x ≠ 0 := by
    show (getSeg c2K1 4).x ≠ 0
    rw [c2K1.eq_def,
      getSeg_knee_step_untouched c2rad c2L3 (by norm_num) (by norm_num) (by norm_num)]
    norm_num [getSeg, c2L3, lnTen_pos.ne']
  have h3 : ¬ ((getSeg c2K2 (4 + 2 + 2 - 2)).x ≠ 0) := by
    show ¬ ((getSeg c2K2 6).x ≠ 0)
    rw [c2K2.eq_def,
      getSeg_knee_step_untouched c2rad c2K1 (by norm_num) (by norm_num) (by norm_num),
      c2K1.eq_def,
      getSeg_knee_step_untouched c2rad c2L3 (by norm_num) (by norm_num) (by norm_num)]
    norm_num [getSeg, c2L3, zeroSeg]
  rw [knee_loop, dif_pos h1]
  rw [show knee_step c2rad c2L3 4 = c2K1 from rfl]
  rw [knee_loop, dif_pos h2]
  rw [show knee_step c2rad c2K1 (4 + 2) = c2K2 from rfl]
  rw [knee_loop, dif_neg h3]

lemma default_state_eq :
    default_state
      = ⟨c2segs, Real.exp ((getSeg c2segs 1).x), Real.exp ((getSeg c2segs 1).y)⟩ := by
  simp only [default_state, config_curve]
  rw [show ([(-70, -70), (-60, -20)] : List (ℝ × ℝ)).length = 2 from rfl]
  rw [show (2:ℕ) * (2 + 4) = 12 from rfl]
  rw [c2_stage_store]
  rw [show (2:ℕ) * 2 = 4 from rfl]
  rw [if_pos (Or.inr (show (getSeg c2L1 4).x ≠ 0 from by norm_num [getSeg, c2L1]))]
  rw [c2_stage_tail]
  rw [show (2:ℕ) + 1 + 1 = 4 from rfl]
  rw [c2_stage_merge]
  dsimp only
  rw [c2_stage_convert]
  rw [show (1:ℝ) / 100 * lnTen / 20 = c2rad from rfl]
  rw [c2_stage_knee]
  dsimp only
  rw [show (8:ℕ) - 3 = 5 from rfl, show (8:ℕ) - 2 = 6 from rfl]
  rw [show c2K2.set 5 ⟨0, (getSeg c2K2 6).y, (getSeg c2K2 5).a, (getSeg c2K2 5).b⟩
    = c2segs from rfl]

lemma getSeg_of_length_le {segs : List CompandSegment} {i : ℕ} (h : segs.length ≤ i) :
    getSeg segs i = zeroSeg :=
  List.getD_eq_default _ _ h

lemma seg_len_nonneg (x1 y1 x2 y2 : ℝ) : 0 ≤ seg_len x1 y1 x2 y2 :=
  Real.sqrt_nonneg _

lemma rmulcos_abs_le {radius r c : ℝ} (h0 : 0 ≤ r) (hr : r ≤ radius) (hc : |c| ≤ 1) :
    |r * c| ≤ radius := by
  rw [abs_mul, abs_of_nonneg h0]
  calc r * |c| ≤ r * 1 := by nlinarith
  _ ≤ radius := by linarith

lemma knee_step_back_x_bound (radius : ℝ) (segs : List CompandSegment) {i : ℕ}
    (h4 : 4 ≤ i) (hl : i - 2 < segs.length) (hrad : 0 ≤ radius) :
    |(getSeg (knee_step radius segs i) (i - 3)).x - (getSeg segs (i - 2)).x| ≤ radius := by
  rw [knee_step_back_x radius segs h4 hl]
  rw [show ∀ a b : ℝ, a - b - a = -b from by intro a b; ring]
  rw [abs_neg]
  exact rmulcos_abs_le (knee_r_back_bounds hrad (seg_len_nonneg ..)).1
    (knee_r_back_bounds hrad (seg_len_nonneg ..)).2 (dirCos_abs_le _ _)

lemma knee_step_fwd_x_bound (radius : ℝ) (segs : List CompandSegment) {i : ℕ}
    (h4 : 4 ≤ i) (hl : i - 2 < segs.length) (hrad : 0 ≤ radius) :
    |(getSeg (knee_step radius segs i) (i - 2)).x - (getSeg segs (i - 2)).x| ≤ radius := by
  rw [knee_step_fwd_x radius segs h4 hl]
  rw [show ∀ a b : ℝ, a + b - a = b from by intro a b; ring]
  exact rmulcos_abs_le (knee_r_fwd_bounds hrad (seg_len_nonneg ..)).1
    (knee_r_fwd_bounds hrad (seg_len_nonneg ..)).2 (dirCos_abs_le _ _)

lemma c2rad_nonneg : 0 ≤ c2rad :=
  div_nonneg (mul_nonneg (by norm_num) lnTen_pos.le) (by norm_num)

lemma c2L3_length : c2L3.length = 12 := by
  norm_num [c2L3]

lemma c2K1_length : c2K1.length = 12 := by
  rw [c2K1.eq_def, knee_step_length]
  exact c2L3_length

lemma c2K2_length : c2K2.length = 12 := by
  rw [c2K2.eq_def, knee_step_length]
  exact c2K1_length

lemma c2segs_length : c2segs.length = 12 := by
  rw [c2segs.eq_def, List.length_set]
  exact c2K2_length

lemma c2rad_eq : c2rad = 1 / 100 * lnTen / 20 :=
  rfl

lemma c2segs_x_lt_one : ∀ j, (getSeg c2segs j).x < 1 := by
  have hln := lnTen_pos
  have hrad0 := c2rad_nonneg
  have hradeq := c2rad_eq
  have hK1at2 : |(getSeg c2K1 2).x - (-70 * (lnTen / 20))| ≤ c2rad := by
    have hb := knee_step_fwd_x_bound c2rad c2L3 (i := 4) (by norm_num)
      (by rw [c2L3_length]; norm_num) hrad0
    rw [show (getSeg c2L3 (4 - 2)).x = -70 * (lnTen / 20) from by norm_num [getSeg, c2L3]]
      at hb
    rw [show (4:ℕ) - 2 = 2 from rfl] at hb
    rw [← c2K1.eq_def] at hb
    exact hb
  have hK1at4 : getSeg c2K1 4 = getSeg c2L3 4 := by
    rw [c2K1.eq_def,
      getSeg_knee_step_untouched c2rad c2L3 (by norm_num) (by norm_num) (by norm_num)]
  have hL3at4 : (getSeg c2L3 4).x = -60 * (lnTen / 20) := by
    norm_num [getSeg, c2L3]
  intro j
  by_cases hj : 12 ≤ j
  · rw [getSeg_of_length_le (c2segs_length ▸ hj)]
    norm_num [zeroSeg]
  · push_neg at hj
    interval_cases j
    · -- index 0: the tail knot, untouched x
      rw [c2segs.eq_def, getSeg_set_ne (by norm_num), c2K2.eq_def,
        getSeg_knee_step_untouched c2rad c2K1 (by norm_num) (by norm_num) (by norm_num),
        c2K1.eq_def, show (0:ℕ) = 4 - 4 from rfl,
        knee_step_x4 c2rad c2L3 (by norm_num) (by rw [c2L3_length]; norm_num)]
      rw [show (4:ℕ) - 4 = 0 from rfl]
      rw [show (getSeg c2L3 0).x = -3501/50 * (lnTen / 20) from by norm_num [getSeg, c2L3]]
      nlinarith [hln]
    · -- index 1: entry point of the first knee, within c2rad of the -70 dB knot
      rw [c2segs.eq_def, getSeg_set_ne (by norm_num), c2K2.eq_def,
        getSeg_knee_step_untouched c2rad c2K1 (by norm_num) (by norm_num) (by norm_num)]
      have hb := knee_step_back_x_bound c2rad c2L3 (i := 4) (by norm_num)
        (by rw [c2L3_length]; norm_num) hrad0
      rw [show (getSeg c2L3 (4 - 2)).x = -70 * (lnTen / 20) from by norm_num [getSeg, c2L3]]
        at hb
      rw [show (4:ℕ) - 3 = 1 from rfl] at hb
      rw [← c2K1.eq_def] at hb
      have h2 := (abs_le.mp hb).2
      nlinarith [hln]
    · -- index 2: exit point of the first knee, within c2rad of the -70 dB knot
      rw [c2segs.eq_def, getSeg_set_ne (by norm_num), c2K2.eq_def,
        show (2:ℕ) = 6 - 4 from rfl,
        knee_step_x4 c2rad c2K1 (by norm_num) (by rw [c2K1_length]; norm_num)]
      rw [show (6:ℕ) - 4 = 2 from rfl]
      have h2 := (abs_le.mp hK1at2).2
      nlinarith [hln]
    · -- index 3: entry point of the second knee, within c2rad of the -60 dB knot
      rw [c2segs.eq_def, getSeg_set_ne (by norm_num), c2K2.eq_def]
      have hb := knee_step_back_x_bound c2rad c2K1 (i := 6) (by norm_num)
        (by rw [c2K1_length]; norm_num) hrad0
      rw [show (6:ℕ) - 2 = 4 from rfl, hK1at4, hL3at4, show (6:ℕ) - 3 = 3 from rfl] at hb
      have h2 := (abs_le.mp hb).2
      nlinarith [hln]
    · -- index 4: exit point of the second knee, within c2rad of the -60 dB knot
      rw [c2segs.eq_def, getSeg_set_ne (by norm_num), c2K2.eq_def]
      have hb := knee_step_fwd_x_bound c2rad c2K1 (i := 6) (by norm_num)
        (by rw [c2K1_length]; norm_num) hrad0
      rw [show (6:ℕ) - 2 = 4 from rfl, hK1at4, hL3at4] at hb
      have h2 := (abs_le.mp hb).2
      nlinarith [hln]
    · -- index 5: the zeroed trailing half-knot
      rw [c2segs.eq_def, getSeg_set_self (by rw [c2K2_length]; norm_num)]
      norm_num
    all_goals
      rw [c2segs.eq_def, getSeg_set_ne (by norm_num), c2K2.eq_def,
        getSeg_knee_step_untouched c2rad c2K1 (by norm_num) (by norm_num) (by norm_num),
        c2K1.eq_def,
        getSeg_knee_step_untouched c2rad c2L3 (by norm_num) (by norm_num) (by norm_num)]
    all_goals norm_num [getSeg, c2L3, zeroSeg]

lemma seg_scan_none_of_lt (segs : List CompandSegment) (t : ℝ)
    (hall : ∀ j s, segs.get? j = some s → s.x < t) (i : ℕ) :
    seg_scan segs t i = none := by
  have H : ∀ n i, segs.length - i ≤ n → seg_scan segs t i = none := by
    intro n
    induction n with
    | zero =>
      intro i hi
      rw [seg_scan]
      split
      · rfl
      · rename_i cs hcs
        have hlt := (List.get?_eq_some.mp hcs).1
        omega
    | succ n ih =>
      intro i hi
      rw [seg_scan]
      split
      · rfl
      · rename_i cs hcs
        rw [if_neg (not_le.mpr (hall _ _ hcs))]
        have hlt := (List.get?_eq_some.mp hcs).1
        exact ih (i + 1) (by omega)
  exact H (segs.length - i) i le_rfl

/-- C2 is violated by the code: with the default configuration (points
(-70, -70) and (-60, -20) dB, soft-knee 0.01, gain 0) and envelope level
v = e (so ln v = 1 > 0, i.e. v > 1, beyond the last knot), the sentinel scan
of get_volume finds no segment inside the built array and runs past its end
(undefined behavior in C, `none` in the model) instead of selecting the
final flat segment. -/
theorem get_volume_default_scan_overflow :
    get_volume default_state (Real.exp 1) = none := by
  have hall : ∀ j s, c2segs.get? j = some s → s.x < 1 := by
    intro j s hjs
    have hlen : j < c2segs.length := (List.get?_eq_some.mp hjs).1
    rw [get?_eq_some_getSeg hlen] at hjs
    have hs : s = getSeg c2segs j := (Option.some.injEq _ _ ▸ hjs).symm
    rw [hs]
    exact c2segs_x_lt_one j
  have hx1 : (getSeg c2segs 1).x ≤ 1 := le_of_lt (c2segs_x_lt_one 1)
  have hnotlt : ¬ (Real.exp 1 < Real.exp ((getSeg c2segs 1).x)) :=
    not_lt.mpr (Real.exp_le_exp.mpr hx1)
  rw [default_state_eq]
  unfold get_volume
  dsimp only
  rw [if_neg hnotlt, Real.log_exp]
  rw [seg_scan_none_of_lt c2segs 1 hall 1]

end Compand
